import Mathlib

/-!
Shallow embedding of the rust-anime parsing core (src/parsing.rs, src/elements.rs).

Calendar dates (chrono NaiveDate) are modelled as a day index (Nat); the only
date operations the code uses are equality, order comparison and succ (+ 1).
Times of day (chrono NaiveTime) are modelled as minutes since midnight (Nat).
NaiveDateTime is a (date, time) pair.  Rust Result is Except String; a Rust
panic (assert_eq failure) is modelled by an outer Option layer, none = panic.
AnimeID (types.rs, not in the sources; an index into the anime map of
database.rs) is a Nat.
-/

namespace RustAnime

/-- Whitespace test used for every regex \s in the embedding. -/
def isWS (c : Char) : Bool := c.isWhitespace

/-- ASCII digit test (regex [0-9]). -/
def isAsciiDigit (c : Char) : Bool := c.isDigit

/-- Numeric value of an ASCII digit character. -/
def digitNat (c : Char) : Nat := c.toNat - 48

/-- Model of chrono NaiveDateTime: day index plus minutes since midnight. -/
structure NaiveDateTime where
  date : Nat
  time : Nat
deriving DecidableEq, Repr

/-- Total minutes of a NaiveDateTime, for comparing timestamps. -/
def NaiveDateTime.toMinutes (dt : NaiveDateTime) : Nat := dt.date * 1440 + dt.time

/-- Model of NaiveTime::parse_from_str(s, "%H:%M") on the dd:dd tokens the
watch-line regex captures: both parts must be digits and the hour/minute must
be in range, otherwise chrono reports a parse error. -/
def parseHM : List Char → Option Nat
  | [a, b, c, d, e] =>
    if isAsciiDigit a = true ∧ isAsciiDigit b = true ∧ c = ':' ∧
        isAsciiDigit d = true ∧ isAsciiDigit e = true then
      if 10 * digitNat a + digitNat b ≤ 23 ∧ 10 * digitNat d + digitNat e ≤ 59 then
        some ((10 * digitNat a + digitNat b) * 60 + (10 * digitNat d + digitNat e))
      else none
    else none
  | _ => none

/-- Episode (elements.rs): a signed 32-bit episode number, value as Int. -/
structure Episode where
  number : Int
deriving DecidableEq, Repr

/-- Largest i32 value. -/
def i32Max : Int := 2147483647

/-- Smallest i32 value. -/
def i32Min : Int := -2147483648

/-- Digit-accumulation loop of Rust i32 FromStr: multiply by ten and
add (positive) or subtract (negative) each digit, failing on a non-digit or
when the running value leaves the i32 range. -/
def parseI32Go (neg : Bool) (acc : Int) : List Char → Option Int
  | [] => some acc
  | c :: cs =>
    if isAsciiDigit c = true then
      if neg = true then
        if acc * 10 - (digitNat c : Int) < i32Min then none
        else parseI32Go neg (acc * 10 - (digitNat c : Int)) cs
      else
        if i32Max < acc * 10 + (digitNat c : Int) then none
        else parseI32Go neg (acc * 10 + (digitNat c : Int)) cs
    else none

/-- Model of Rust str::parse::[i32]: an optional + or - sign followed by one
or more ASCII digits, failing on the empty string, a lone sign, any other
character, or a value outside the i32 range. -/
def parseI32 (s : String) : Option Int :=
  match s.data with
  | [] => none
  | c :: rest =>
    if c = '+' then
      match rest with
      | [] => none
      | _ => parseI32Go false 0 rest
    else if c = '-' then
      match rest with
      | [] => none
      | _ => parseI32Go true 0 rest
    else parseI32Go false 0 (c :: rest)

/-- Episode::from (elements.rs): delegate to i32 parsing. -/
def Episode.fromStr (ep_str : String) : Except String Episode :=
  match parseI32 ep_str with
  | some number => .ok ⟨number⟩
  | none => .error ("Invalid episode number: " ++ ep_str)

/-- Company (elements.rs): the ordered list of co-watcher names. -/
structure Company where
  names : List String
deriving DecidableEq, Repr

/-- Model of Rust str::trim on a character list. -/
def trimChars (cs : List Char) : List Char :=
  ((cs.dropWhile isWS).reverse.dropWhile isWS).reverse

/-- Model of Rust str::split(',') on a character list. -/
def splitOnComma (cs : List Char) : List (List Char) :=
  cs.foldr
    (fun c acc =>
      match acc with
      | [] => [[c]]
      | g :: gs => if c = ',' then [] :: g :: gs else (c :: g) :: gs)
    [[]]

/-- Company::from_str (elements.rs).  The regex check (r"^\x7b(.*)\x7d$",
where . never matches a newline) holds exactly when the text has length at
least two, starts with an opening brace, ends with a closing brace, and
contains no newline.  Then the braces are dropped, the interior is trimmed as
a whole, split on commas, and pieces that are empty after trimming are
discarded; kept pieces are stored verbatim. -/
def Company.fromStr (company_str : String) : Except String Company :=
  let cs := company_str.data
  if 2 ≤ cs.length ∧ cs.head? = some '{' ∧ cs.getLast? = some '}' ∧ '\n' ∉ cs then
    let interior := trimChars ((cs.drop 1).dropLast)
    let names :=
      if interior = [] then ([] : List String)
      else ((splitOnComma interior).filter (fun p => trimChars p ≠ [])).map
        (fun p => String.mk p)
    .ok ⟨names⟩
  else .error ("String does not match company format: " ++ company_str)

/-- WatchEntry (elements.rs). -/
structure WatchEntry where
  anime_id : Nat
  start_time : NaiveDateTime
  end_time : NaiveDateTime
  episode : Episode
  company : Option Company
deriving DecidableEq, Repr

/-- ParsingContext (parsing.rs). -/
structure ParsingContext where
  current_date : Option Nat
  current_anime : Option Nat
  last_watch_entry : Option WatchEntry
  last_company : Option Company
deriving DecidableEq, Repr

/-- ParsingContext::notify_new_current_date (parsing.rs): reject a date that
is not strictly after the current one, otherwise set it and clear the current
anime and the last watch entry. -/
def ParsingContext.notify_new_current_date (ctx : ParsingContext) (date : Nat) :
    Except String ParsingContext :=
  match ctx.current_date with
  | some current_date =>
    if date ≤ current_date then
      .error ("Current date is earlier or equal than previous date")
    else
      .ok { ctx with current_date := some date, current_anime := none,
                     last_watch_entry := none }
  | none =>
    .ok { ctx with current_date := some date, current_anime := none,
                   last_watch_entry := none }

/-- ParsingContext::notify_new_current_anime (parsing.rs). -/
def ParsingContext.notify_new_current_anime (ctx : ParsingContext) (anime_id : Nat) :
    Except String ParsingContext :=
  .ok { ctx with current_anime := some anime_id, last_watch_entry := none }

/-- ParsingContext::notify_new_watch_entry (parsing.rs): when a last entry
exists, assert_eq on the anime ids (none models the panic); the entry is then
stored as the last watch entry. -/
def ParsingContext.notify_new_watch_entry (ctx : ParsingContext) (entry : WatchEntry) :
    Option (Except String ParsingContext) :=
  match ctx.last_watch_entry with
  | some last_entry =>
    if last_entry.anime_id = entry.anime_id then
      some (.ok { ctx with last_watch_entry := some entry })
    else none
  | none => some (.ok { ctx with last_watch_entry := some entry })

/-- Capture groups of the watch-line regex
r"^([0-9]\x7b2\x7d:[0-9]\x7b2\x7d)\s*-\s*([0-9]\x7b2\x7d:[0-9]\x7b2\x7d)?\s+([0-9][0-9.]\x7b1,\x7d|--)?\s*(\x7b.*\x7d)?\s*$". -/
structure WatchCaps where
  g1 : List Char
  g2 : Option (List Char)
  g3 : Option (List Char)
  g4 : Option (List Char)
deriving DecidableEq, Repr

/-- Consume a [0-9][0-9]:[0-9][0-9] token at the front of the input. -/
def takeTime : List Char → Option (List Char × List Char)
  | a :: b :: c :: d :: e :: rest =>
    if isAsciiDigit a = true ∧ isAsciiDigit b = true ∧ c = ':' ∧
        isAsciiDigit d = true ∧ isAsciiDigit e = true then
      some ([a, b, c, d, e], rest)
    else none
  | _ => none

/-- Consume the episode token ([0-9][0-9.]\x7b1,\x7d or the literal --) at
the front of the input.  The digit run is maximal, as for the greedy regex:
no later regex part can absorb a digit or a dot it gives up. -/
def takeG3 : List Char → Option (List Char × List Char)
  | [] => none
  | c :: rest =>
    if c = '-' then
      match rest with
      | c2 :: rest2 => if c2 = '-' then some (['-', '-'], rest2) else none
      | [] => none
    else if isAsciiDigit c = true then
      if rest.takeWhile (fun x => isAsciiDigit x || x = '.') = ([] : List Char) then none
      else some (c :: rest.takeWhile (fun x => isAsciiDigit x || x = '.'),
                 rest.dropWhile (fun x => isAsciiDigit x || x = '.'))
    else none

/-- Match the tail \s*(\x7b.*\x7d)?\s*$ of the watch-line regex, returning
the optional company capture.  A company group, when present, runs from the
opening brace to the last closing brace before the trailing whitespace, and
(because . never matches a newline) may not contain a newline. -/
def matchG4End (cs : List Char) : Option (Option (List Char)) :=
  match cs.dropWhile isWS with
  | [] => some none
  | c :: rest =>
    if c = '{' then
      let core := (((c :: rest).reverse.dropWhile isWS)).reverse
      if 2 ≤ core.length ∧ core.getLast? = some '}' ∧ '\n' ∉ core then
        some (some core)
      else none
    else none

/-- Backtracking-faithful matcher for the watch-line regex.  After the dash,
the end-time group is tried greedily (branch A, requiring at least one space
after it); when its shape is absent the whitespace collapses to \s+ with the
group missing (branch B).  When branch A finds a time, branch B can never
succeed downstream (the colon of the time blocks every later regex part), so
trying A first and falling back to B is the full backtracking behaviour. -/
def matchWatch (cs : List Char) : Option WatchCaps :=
  match takeTime cs with
  | none => none
  | some (t1, r1) =>
    match r1.dropWhile isWS with
    | [] => none
    | c :: r3 =>
      if c = '-' then
        let r4 := r3.dropWhile isWS
        let branchA : Option (Option (List Char) × List Char) :=
          match takeTime r4 with
          | some (t2, r5) =>
            match r5 with
            | c5 :: _ => if isWS c5 = true then some (some t2, r5.dropWhile isWS) else none
            | [] => none
          | none => none
        let branchB : Option (Option (List Char) × List Char) :=
          match r3 with
          | c3 :: _ => if isWS c3 = true then some (none, r4) else none
          | [] => none
        match (match branchA with | some x => some x | none => branchB) with
        | none => none
        | some (g2, r6) =>
          match (match takeG3 r6 with
                 | some (g, r) => (some g, r)
                 | none => ((none : Option (List Char)), r6)) with
          | (g3, r7) =>
            match matchG4End r7 with
            | none => none
            | some g4 => some ⟨t1, g2, g3, g4⟩
      else none

/-- Day-rollover rule 1 of WatchLineParser::parse (parsing.rs lines 131-144):
when a previous entry exists and its end time of day is strictly greater than
the new start time, the session is assumed to start the day after the current
date.  Returns (start_date, end_date, current_date, context); none models the
assert_eq panic on an anime-id mismatch. -/
def rolloverRule1 (ctx : ParsingContext) (current_date anime_id start_time : Nat) :
    Option (Except String (Nat × Nat × Nat × ParsingContext)) :=
  match ctx.last_watch_entry with
  | some last_entry =>
    if start_time < last_entry.end_time.time then
      if last_entry.anime_id = anime_id then
        match ctx.notify_new_current_date (current_date + 1) with
        | .error e => some (.error e)
        | .ok c1 =>
          match c1.notify_new_current_anime anime_id with
          | .error e => some (.error e)
          | .ok c2 => some (.ok (current_date + 1, current_date + 1, current_date + 1, c2))
      else none
    else some (.ok (current_date, current_date, current_date, ctx))
  | none => some (.ok (current_date, current_date, current_date, ctx))

/-- Day-rollover rule 2 of WatchLineParser::parse (parsing.rs lines 146-156):
when the end time is strictly earlier than the start time the session crosses
midnight, so the end date (and the context date) move one day forward.  This
is a second independent if in the source, not an else branch of rule 1. -/
def rolloverRule2 (ctx : ParsingContext) (start_date end_date current_date anime_id : Nat)
    (start_time end_time : Nat) : Except String (Nat × Nat × ParsingContext) :=
  if end_time < start_time then
    match ctx.notify_new_current_date (current_date + 1) with
    | .error e => .error e
    | .ok c1 =>
      match c1.notify_new_current_anime anime_id with
      | .error e => .error e
      | .ok c2 => .ok (current_date, current_date + 1, c2)
  else .ok (start_date, end_date, ctx)

/-- Optional-company step of WatchLineParser::parse (parsing.rs lines 168-171). -/
def parseCompanyOpt (g4 : Option (List Char)) : Except String (Option Company) :=
  match g4 with
  | some cstr =>
    match Company.fromStr (String.mk cstr) with
    | .ok c => .ok (some c)
    | .error e => .error e
  | none => .ok none

/-- WatchLineParser::parse (parsing.rs lines 107-184).  The result pairs the
Rust return value with the final state of the borrowed context (mutations
made before a failure persist, as for the Rust &mut context); the outer
Option is none when an assert_eq panics.  The two notify calls inside the
rollover rules cannot fail here (the date always moves strictly forward), so
pairing their propagated error with the context passed in is exact: a failing
notify_new_current_date leaves the context unchanged. -/
def WatchLineParser.parse (ctx : ParsingContext) (line : String) :
    Option (Except String WatchEntry × ParsingContext) :=
  match ctx.current_date with
  | none => some (.error ("No current date!"), ctx)
  | some current_date0 =>
    match ctx.current_anime with
    | none => some (.error ("No current anime!"), ctx)
    | some current_anime =>
      match matchWatch line.data with
      | none => some (.error ("Line does not match regex: " ++ line), ctx)
      | some caps =>
        match caps.g2 with
        | none => some (.error ("No end time!"), ctx)
        | some endStr =>
          match caps.g3 with
          | none => some (.error ("No episode number!"), ctx)
          | some epStr =>
            match parseHM caps.g1 with
            | none => some (.error ("Invalid start time"), ctx)
            | some start_time =>
              match parseHM endStr with
              | none => some (.error ("Invalid end time"), ctx)
              | some end_time =>
                match rolloverRule1 ctx current_date0 current_anime start_time with
                | none => none
                | some (.error e) => some (.error e, ctx)
                | some (.ok (sd1, ed1, cd1, ctx1)) =>
                  match rolloverRule2 ctx1 sd1 ed1 cd1 current_anime start_time end_time with
                  | .error e => some (.error e, ctx1)
                  | .ok (sd2, ed2, ctx2) =>
                    match Episode.fromStr (String.mk epStr) with
                    | .error e => some (.error ("Invalid episode: " ++ e), ctx2)
                    | .ok episode =>
                      match parseCompanyOpt caps.g4 with
                      | .error e => some (.error e, ctx2)
                      | .ok company =>
                        match ctx2.notify_new_watch_entry
                            ⟨current_anime, ⟨sd2, start_time⟩, ⟨ed2, end_time⟩,
                             episode, company⟩ with
                        | none => none
                        | some (.error e) => some (.error e, ctx2)
                        | some (.ok ctx3) =>
                          some (.ok ⟨current_anime, ⟨sd2, start_time⟩, ⟨ed2, end_time⟩,
                                     episode, company⟩, ctx3)

/-- Bracket and brace characters excluded from a title by the title regex. -/
def isBracket (c : Char) : Bool := c = '[' || c = ']' || c = '{' || c = '}'

/-- Match the tail \s*(?://.*)?$ of the title regex after the colon: optional
whitespace, then optionally a comment marker followed by anything except a
newline, up to the end of the line. -/
def titleTailOk (cs : List Char) : Bool :=
  match cs.dropWhile isWS with
  | [] => true
  | '/' :: '/' :: rest => decide ('\n' ∉ rest)
  | _ => false

/-- Greedy scan for the title group [^\x5b\x5d\x7b\x7d]* followed by a colon
and a valid tail.  acc holds the group read so far, reversed; extending the
group is always preferred (greedy), falling back to using the current colon
as the separator, exactly as the backtracking regex engine does. -/
def titleScan (acc : List Char) : List Char → Option (List Char)
  | [] => none
  | c :: rest =>
    match (if isBracket c = true then none else titleScan (c :: acc) rest) with
    | some r => some r
    | none =>
      if c = ':' ∧ titleTailOk rest = true then some acc.reverse else none

/-- TitleLineParser::parse (parsing.rs lines 190-202), the regex
r"^\s*([a-zA-Z0-9][^\x5b\x5d\x7b\x7d]*):\s*(?://.*)?$": skip leading
whitespace, require an alphanumeric first character, then find the greedy
title group. -/
def TitleLineParser.parse (line : String) : Except String String :=
  match line.data.dropWhile isWS with
  | [] => .error ("Line does not match regex: " ++ line)
  | c :: rest =>
    if c.isAlphanum = true then
      match titleScan [c] rest with
      | some cap => .ok (String.mk cap)
      | none => .error ("Line does not match regex: " ++ line)
    else .error ("Line does not match regex: " ++ line)

/-- Episode format claimed by the spec: an optional leading minus sign
followed by one or more ASCII digits, nothing else. -/
def episodeClaimedFormat (s : String) : Bool :=
  match s.data with
  | [] => false
  | c :: rest =>
    if c = '-' then !rest.isEmpty && rest.all isAsciiDigit
    else (c :: rest).all isAsciiDigit

/-- Decimal value of a digit string. -/
def digitsVal (ds : List Char) : Nat :=
  ds.foldl (fun a c => a * 10 + digitNat c) 0

/-- Amended episode format: an optional leading minus or plus sign followed
by one or more ASCII digits whose value fits in a signed 32-bit integer. -/
def episodeAmendedFormat (s : String) : Bool :=
  match s.data with
  | [] => false
  | c :: rest =>
    if c = '+' then
      !rest.isEmpty && rest.all isAsciiDigit && decide ((digitsVal rest : Int) ≤ i32Max)
    else if c = '-' then
      !rest.isEmpty && rest.all isAsciiDigit && decide ((digitsVal rest : Int) ≤ 2147483648)
    else
      (c :: rest).all isAsciiDigit && decide ((digitsVal (c :: rest) : Int) ≤ i32Max)

/-- Positive digit accumulation without an overflow check, for relating the
checked loop to the final value. -/
def accPos (acc : Int) (ds : List Char) : Int :=
  ds.foldl (fun a c => a * 10 + (digitNat c : Int)) acc

/-- Negative digit accumulation without an overflow check. -/
def accNeg (acc : Int) (ds : List Char) : Int :=
  ds.foldl (fun a c => a * 10 - (digitNat c : Int)) acc

/-- Company text wrapped in a brace pair, as the spec words it. -/
def companyWrapped (s : String) : Prop :=
  2 ≤ s.data.length ∧ s.data.head? = some '{' ∧ s.data.getLast? = some '}'

instance (s : String) : Decidable (companyWrapped s) := by
  unfold companyWrapped; infer_instance

/-- Entry list produced for a brace interior, as the amended claim words it:
trim the interior as a whole, split on commas, drop pieces that are empty
after trimming, and keep the surviving pieces verbatim. -/
def companyPieces (mid : List Char) : List String :=
  if trimChars mid = [] then []
  else ((splitOnComma (trimChars mid)).filter (fun p => trimChars p ≠ [])).map
    (fun p => String.mk p)

/-- Session line with the given single digit as its episode token. -/
def c10line (n : Fin 10) : String :=
  String.mk ['1', '0', ':', '0', '0', ' ', '-', ' ', '1', '2', ':', '0', '0', ' ',
             Char.ofNat (48 + n.val)]


/-- A day-rollover trigger for a session with the given start and end times
of day, in the given context: rule 1 triggers when a previous entry exists
whose end time of day is strictly greater than the start time, rule 2 when
the end time is strictly earlier than the start time. -/
def rolloverTriggered (ctx : ParsingContext) (start_time end_time : Nat) : Prop :=
  (∃ last, ctx.last_watch_entry = some last ∧ start_time < last.end_time.time) ∨
  end_time < start_time

/-- A trailing colon in the sense of the title regex: some colon in the line
followed only by whitespace and an optional comment up to the end. -/
def hasTrailingColon : List Char → Bool
  | [] => false
  | c :: rest => (decide (c = ':') && titleTailOk rest) || hasTrailingColon rest

/-! Helper lemmas. -/

theorem parseHM_lt {cs : List Char} {t : Nat} (h : parseHM cs = some t) : t < 1440 := by
  unfold parseHM at h
  split at h
  · split at h
    · split at h
      · rename_i hrange
        cases h
        omega
      · cases h
    · cases h
  · cases h

theorem notify_date_ok {ctx c1 : ParsingContext} {d : Nat}
    (h : ctx.notify_new_current_date d = .ok c1) :
    c1 = ⟨some d, none, none, ctx.last_company⟩ := by
  unfold ParsingContext.notify_new_current_date at h
  split at h
  · split at h
    · cases h
    · cases h
      rfl
  · cases h
    rfl

theorem rolloverRule1_ok {ctx : ParsingContext} {cd an st sd ed cd1 : Nat}
    {ctx1 : ParsingContext}
    (h : rolloverRule1 ctx cd an st = some (.ok (sd, ed, cd1, ctx1))) :
    sd = ed ∧
    ((ctx1 = ctx ∧ cd1 = cd ∧
        ¬ ∃ last, ctx.last_watch_entry = some last ∧ st < last.end_time.time) ∨
     (ctx1 = ⟨some (cd + 1), some an, none, ctx.last_company⟩ ∧ cd1 = cd + 1 ∧
        ∃ last, ctx.last_watch_entry = some last ∧ st < last.end_time.time)) := by
  unfold rolloverRule1 at h
  split at h
  · rename_i last_entry hlast
    split at h
    · rename_i hlt
      split at h
      · split at h
        · cases h
        · rename_i c1 heq
          have hc1 := notify_date_ok heq
          subst hc1
          simp only [ParsingContext.notify_new_current_anime] at h
          cases h
          exact ⟨rfl, Or.inr ⟨rfl, rfl, last_entry, hlast, hlt⟩⟩
      · cases h
    · rename_i hnlt
      cases h
      refine ⟨rfl, Or.inl ⟨rfl, rfl, ?_⟩⟩
      rintro ⟨last2, hl2, hlt2⟩
      rw [hlast] at hl2
      cases hl2
      exact hnlt hlt2
  · rename_i hlast
    cases h
    refine ⟨rfl, Or.inl ⟨rfl, rfl, ?_⟩⟩
    rintro ⟨last2, hl2, -⟩
    rw [hlast] at hl2
    cases hl2

theorem rolloverRule2_ok {ctx : ParsingContext} {sd ed cd an st et sd2 ed2 : Nat}
    {ctx2 : ParsingContext}
    (h : rolloverRule2 ctx sd ed cd an st et = .ok (sd2, ed2, ctx2)) :
    (sd2 = cd ∧ ed2 = cd + 1 ∧ et < st ∧
      ctx2 = ⟨some (cd + 1), some an, none, ctx.last_company⟩) ∨
    (sd2 = sd ∧ ed2 = ed ∧ ¬ et < st ∧ ctx2 = ctx) := by
  unfold rolloverRule2 at h
  split at h
  · rename_i hlt
    split at h
    · cases h
    · rename_i c1 heq
      have hc1 := notify_date_ok heq
      subst hc1
      simp only [ParsingContext.notify_new_current_anime] at h
      cases h
      exact Or.inl ⟨rfl, rfl, hlt, rfl⟩
  · rename_i hnlt
    cases h
    exact Or.inr ⟨rfl, rfl, hnlt, rfl⟩

/-! Claim theorems: context transitions and concrete scenario evaluations. -/

/-- Claim C1, counterexample: the line 23:40 - 00:20 1.5 has valid times that
trigger day-rollover rule 2 but an episode token that fails episode parsing;
the parse returns a failure yet the context has changed (its current date
advanced and differs from the starting context). -/
theorem failed_parse_mutates_context :
    WatchLineParser.parse ⟨some 100, some 1, none, none⟩ "23:40 - 00:20 1.5"
      = some (.error ("Invalid episode: Invalid episode number: 1.5"),
          ⟨some 101, some 1, none, none⟩)
    ∧ (⟨some 101, some 1, none, none⟩ : ParsingContext)
        ≠ ⟨some 100, some 1, none, none⟩ :=
  ⟨rfl, by decide⟩


/-- Claim C1, amended: a failed watch-line parse leaves the context exactly
unchanged whenever the line's parsed times do not trigger a day-rollover rule
in the starting context - which covers every failure before the rollover step
(missing date or show, line shape mismatch, missing groups, bad time) as well
as bad-episode and bad-company failures with no rollover trigger.  Conversely,
whenever a failed parse changes the context, the line matched the pattern with
times triggering a rollover rule, and the change is exactly the rollover
residue: the current date advanced by one or two days, the last watch entry
cleared, current anime and last company preserved. -/
theorem failed_parse_context (ctx : ParsingContext) (line : String)
    (e : String) (ctx2 : ParsingContext)
    (h : WatchLineParser.parse ctx line = some (.error e, ctx2)) :
    ((∀ caps endStr st et,
        matchWatch line.data = some caps → caps.g2 = some endStr →
        parseHM caps.g1 = some st → parseHM endStr = some et →
        ¬ rolloverTriggered ctx st et) →
      ctx2 = ctx)
    ∧ (ctx2 = ctx ∨
       ∃ caps endStr st et,
         matchWatch line.data = some caps ∧ caps.g2 = some endStr ∧
         parseHM caps.g1 = some st ∧ parseHM endStr = some et ∧
         rolloverTriggered ctx st et ∧
         ∃ d, ctx.current_date = some d ∧
           (ctx2.current_date = some (d + 1) ∨ ctx2.current_date = some (d + 2)) ∧
           ctx2.last_watch_entry = none ∧
           ctx2.current_anime = ctx.current_anime ∧
           ctx2.last_company = ctx.last_company) := by
  unfold WatchLineParser.parse at h
  split at h
  · cases h
    exact ⟨fun _ => rfl, Or.inl rfl⟩
  · rename_i cd0 hcd
    split at h
    · cases h
      exact ⟨fun _ => rfl, Or.inl rfl⟩
    · rename_i an han
      split at h
      · cases h
        exact ⟨fun _ => rfl, Or.inl rfl⟩
      · rename_i caps hcaps
        split at h
        · cases h
          exact ⟨fun _ => rfl, Or.inl rfl⟩
        · rename_i endStr hg2
          split at h
          · cases h
            exact ⟨fun _ => rfl, Or.inl rfl⟩
          · rename_i epStr hg3
            split at h
            · cases h
              exact ⟨fun _ => rfl, Or.inl rfl⟩
            · rename_i st hst
              split at h
              · cases h
                exact ⟨fun _ => rfl, Or.inl rfl⟩
              · rename_i et het
                split at h
                · cases h
                · cases h
                  exact ⟨fun _ => rfl, Or.inl rfl⟩
                · rename_i sd1 ed1 cd1 ctx1 hr1
                  obtain ⟨-, hctx1⟩ := rolloverRule1_ok hr1
                  split at h
                  · cases h
                    rcases hctx1 with ⟨h1, -, -⟩ | ⟨h1, -, hex⟩
                    · exact ⟨fun _ => h1, Or.inl h1⟩
                    · subst h1
                      refine ⟨fun hno => absurd (Or.inl hex)
                          (hno caps endStr st et hcaps hg2 hst het), ?_⟩
                      exact Or.inr ⟨caps, endStr, st, et, hcaps, hg2, hst, het,
                        Or.inl hex, cd0, hcd, Or.inl rfl, rfl, han.symm, rfl⟩
                  · rename_i sd2 ed2 ctx2x hr2
                    have hmain : (ctx2x = ctx ∧ ¬ rolloverTriggered ctx st et) ∨
                        (rolloverTriggered ctx st et ∧
                         (ctx2x.current_date = some (cd0 + 1) ∨
                          ctx2x.current_date = some (cd0 + 2)) ∧
                         ctx2x.last_watch_entry = none ∧
                         ctx2x.current_anime = some an ∧
                         ctx2x.last_company = ctx.last_company) := by
                      rcases rolloverRule2_ok hr2 with ⟨-, -, hlt2, h2⟩ | ⟨-, -, hnlt2, h2⟩ <;>
                        rcases hctx1 with ⟨h1, hcd1, hex1⟩ | ⟨h1, hcd1, hex1⟩ <;>
                          subst h1 <;> subst hcd1 <;> subst h2
                      · exact Or.inr ⟨Or.inr hlt2, Or.inl rfl, rfl, rfl, rfl⟩
                      · exact Or.inr ⟨Or.inl hex1, Or.inr rfl, rfl, rfl, rfl⟩
                      · refine Or.inl ⟨rfl, ?_⟩
                        rintro (hex | hlt)
                        · exact hex1 hex
                        · exact hnlt2 hlt
                      · exact Or.inr ⟨Or.inl hex1, Or.inl rfl, rfl, rfl, rfl⟩
                    split at h
                    · cases h
                      refine ⟨fun hno => ?_, ?_⟩
                      · rcases hmain with ⟨hctx, -⟩ | ⟨htrig, -⟩
                        · exact hctx
                        · exact absurd htrig (hno caps endStr st et hcaps hg2 hst het)
                      · rcases hmain with ⟨hctx, -⟩ | ⟨htrig, hdt, hlw, hca, hlc⟩
                        · exact Or.inl hctx
                        · exact Or.inr ⟨caps, endStr, st, et, hcaps, hg2, hst, het,
                            htrig, cd0, hcd, hdt, hlw, hca.trans han.symm, hlc⟩
                    · split at h
                      · cases h
                        refine ⟨fun hno => ?_, ?_⟩
                        · rcases hmain with ⟨hctx, -⟩ | ⟨htrig, -⟩
                          · exact hctx
                          · exact absurd htrig (hno caps endStr st et hcaps hg2 hst het)
                        · rcases hmain with ⟨hctx, -⟩ | ⟨htrig, hdt, hlw, hca, hlc⟩
                          · exact Or.inl hctx
                          · exact Or.inr ⟨caps, endStr, st, et, hcaps, hg2, hst, het,
                              htrig, cd0, hcd, hdt, hlw, hca.trans han.symm, hlc⟩
                      · split at h
                        · cases h
                        · cases h
                          refine ⟨fun hno => ?_, ?_⟩
                          · rcases hmain with ⟨hctx, -⟩ | ⟨htrig, -⟩
                            · exact hctx
                            · exact absurd htrig (hno caps endStr st et hcaps hg2 hst het)
                          · rcases hmain with ⟨hctx, -⟩ | ⟨htrig, hdt, hlw, hca, hlc⟩
                            · exact Or.inl hctx
                            · exact Or.inr ⟨caps, endStr, st, et, hcaps, hg2, hst, het,
                                htrig, cd0, hcd, hdt, hlw, hca.trans han.symm, hlc⟩
                        · simp at h

/-- Witness for the amended claim C1, at the concrete failing line
23:40 - 00:20 1.5 in a context at date 100 with anime 1 selected: the failure
changed the context, so a rollover trigger is exhibited together with the
residue shape. -/
theorem failed_parse_context_witness :
    (⟨some 101, some 1, none, none⟩ : ParsingContext)
        = ⟨some 100, some 1, none, none⟩ ∨
    (∃ caps endStr st et,
      matchWatch ("23:40 - 00:20 1.5" : String).data = some caps ∧
      caps.g2 = some endStr ∧
      parseHM caps.g1 = some st ∧ parseHM endStr = some et ∧
      rolloverTriggered ⟨some 100, some 1, none, none⟩ st et ∧
      ∃ d, (⟨some 100, some 1, none, none⟩ : ParsingContext).current_date = some d ∧
        ((⟨some 101, some 1, none, none⟩ : ParsingContext).current_date = some (d + 1) ∨
         (⟨some 101, some 1, none, none⟩ : ParsingContext).current_date = some (d + 2)) ∧
        (⟨some 101, some 1, none, none⟩ : ParsingContext).last_watch_entry = none ∧
        (⟨some 101, some 1, none, none⟩ : ParsingContext).current_anime
          = (⟨some 100, some 1, none, none⟩ : ParsingContext).current_anime ∧
        (⟨some 101, some 1, none, none⟩ : ParsingContext).last_company
          = (⟨some 100, some 1, none, none⟩ : ParsingContext).last_company) :=
  (failed_parse_context ⟨some 100, some 1, none, none⟩ "23:40 - 00:20 1.5"
    ("Invalid episode: Invalid episode number: 1.5") ⟨some 101, some 1, none, none⟩ rfl).2

/-- Claim C2, failing evaluation: in a context at date 100 whose previous
entry ran 23:00 to 23:40 on day 100, the single line 23:00 - 02:10 12 fires
both rollover rules (rule 1 first, then rule 2, which is not an else branch),
so this one evaluation moves the current date from 100 to 102, two days, not
at most one. -/
theorem one_session_advances_two_days :
    WatchLineParser.parse
        ⟨some 100, some 1, some ⟨1, ⟨100, 1380⟩, ⟨100, 1420⟩, ⟨12⟩, none⟩, none⟩
        "23:00 - 02:10 12"
      = some (.ok ⟨1, ⟨101, 1380⟩, ⟨102, 130⟩, ⟨12⟩, none⟩,
          ⟨some 102, some 1, some ⟨1, ⟨101, 1380⟩, ⟨102, 130⟩, ⟨12⟩, none⟩, none⟩) :=
  rfl

/-- Claim C3, failing evaluation: the three consecutive lines 23:00 - 23:40,
23:00 - 02:10 and 02:10 - 00:00 from day 100 actually produce entry dates
(100, 100), (101, 102) and (102, 103) with the context ending at 103, not the
claimed (100, 100), (100, 101), (101, 102) ending at 102. -/
theorem three_session_scenario_actual :
    WatchLineParser.parse ⟨some 100, some 1, none, none⟩ "23:00 - 23:40 12"
      = some (.ok ⟨1, ⟨100, 1380⟩, ⟨100, 1420⟩, ⟨12⟩, none⟩,
          ⟨some 100, some 1, some ⟨1, ⟨100, 1380⟩, ⟨100, 1420⟩, ⟨12⟩, none⟩, none⟩)
    ∧ WatchLineParser.parse
        ⟨some 100, some 1, some ⟨1, ⟨100, 1380⟩, ⟨100, 1420⟩, ⟨12⟩, none⟩, none⟩
        "23:00 - 02:10 12"
      = some (.ok ⟨1, ⟨101, 1380⟩, ⟨102, 130⟩, ⟨12⟩, none⟩,
          ⟨some 102, some 1, some ⟨1, ⟨101, 1380⟩, ⟨102, 130⟩, ⟨12⟩, none⟩, none⟩)
    ∧ WatchLineParser.parse
        ⟨some 102, some 1, some ⟨1, ⟨101, 1380⟩, ⟨102, 130⟩, ⟨12⟩, none⟩, none⟩
        "02:10 - 00:00 13"
      = some (.ok ⟨1, ⟨102, 130⟩, ⟨103, 0⟩, ⟨13⟩, none⟩,
          ⟨some 103, some 1, some ⟨1, ⟨102, 130⟩, ⟨103, 0⟩, ⟨13⟩, none⟩, none⟩) :=
  ⟨rfl, rfl, rfl⟩

/-- Claim C8: advancing the context date fails whenever a current date exists
and the new date is not strictly after it, and on success sets the new date
and clears the current anime and the last watch entry (the last company is
untouched). -/
theorem advance_to_date_spec (ctx : ParsingContext) (d : Nat) :
    ((∀ c, ctx.current_date = some c → c < d) →
      ctx.notify_new_current_date d = .ok ⟨some d, none, none, ctx.last_company⟩)
    ∧ (∀ c, ctx.current_date = some c → d ≤ c →
        ctx.notify_new_current_date d
          = .error ("Current date is earlier or equal than previous date")) := by
  obtain ⟨cd, a, lw, lc⟩ := ctx
  cases cd with
  | none =>
    refine ⟨fun _ => rfl, fun c hc => ?_⟩
    cases hc
  | some c0 =>
    constructor
    · intro hlt
      have hc0 : c0 < d := hlt c0 rfl
      unfold ParsingContext.notify_new_current_date
      dsimp only
      rw [if_neg (by omega)]
    · intro c hc hle
      replace hc : some c0 = some c := hc
      cases hc
      unfold ParsingContext.notify_new_current_date
      dsimp only
      rw [if_pos hle]

/-- Witness for claim C8, at a context whose date is 5 with a show and a last
entry present: advancing to 6 succeeds and clears them, advancing to 5 fails. -/
theorem advance_to_date_spec_witness :
    ParsingContext.notify_new_current_date
        ⟨some 5, some 1, some ⟨1, ⟨5, 0⟩, ⟨5, 10⟩, ⟨1⟩, none⟩, none⟩ 6
      = .ok ⟨some 6, none, none, none⟩
    ∧ ParsingContext.notify_new_current_date
        ⟨some 5, some 1, some ⟨1, ⟨5, 0⟩, ⟨5, 10⟩, ⟨1⟩, none⟩, none⟩ 5
      = .error ("Current date is earlier or equal than previous date") :=
  ⟨(advance_to_date_spec ⟨some 5, some 1, some ⟨1, ⟨5, 0⟩, ⟨5, 10⟩, ⟨1⟩, none⟩, none⟩ 6).1
      (fun c hc => by replace hc : some 5 = some c := hc; cases hc; omega),
   (advance_to_date_spec ⟨some 5, some 1, some ⟨1, ⟨5, 0⟩, ⟨5, 10⟩, ⟨1⟩, none⟩, none⟩ 5).2
      5 rfl (Nat.le_refl 5)⟩

/-- Claim C9, counterexample: recording an entry whose show id (2) differs
from the current show (1) does not fail the assertion when no previous entry
exists; the entry is stored, so the assertion does not compare against the
current show. -/
theorem record_entry_no_current_show_check :
    ParsingContext.notify_new_watch_entry ⟨some 0, some 1, none, none⟩
        ⟨2, ⟨0, 0⟩, ⟨0, 1⟩, ⟨1⟩, none⟩
      = some (.ok ⟨some 0, some 1, some ⟨2, ⟨0, 0⟩, ⟨0, 1⟩, ⟨1⟩, none⟩, none⟩)
    ∧ (⟨some 0, some 1, none, none⟩ : ParsingContext).current_anime = some 1
    ∧ (⟨2, ⟨0, 0⟩, ⟨0, 1⟩, ⟨1⟩, none⟩ : WatchEntry).anime_id = 2 :=
  ⟨rfl, rfl, rfl⟩

/-- Claim C9, amended: recording an entry fatally asserts that its show id
matches the previous last entry, when one exists (panic, modelled as none, on
mismatch); with no previous entry any entry is accepted, and on success the
entry is stored as the last watch entry. -/
theorem record_entry_spec (ctx : ParsingContext) (entry : WatchEntry) :
    (ctx.last_watch_entry = none →
      ctx.notify_new_watch_entry entry
        = some (.ok { ctx with last_watch_entry := some entry }))
    ∧ (∀ last, ctx.last_watch_entry = some last → last.anime_id = entry.anime_id →
        ctx.notify_new_watch_entry entry
          = some (.ok { ctx with last_watch_entry := some entry }))
    ∧ (∀ last, ctx.last_watch_entry = some last → last.anime_id ≠ entry.anime_id →
        ctx.notify_new_watch_entry entry = none) := by
  refine ⟨fun hnone => ?_, fun last hsome heq => ?_, fun last hsome hne => ?_⟩ <;>
    unfold ParsingContext.notify_new_watch_entry
  · rw [hnone]
  · rw [hsome]
    dsimp only
    rw [if_pos heq]
  · rw [hsome]
    dsimp only
    rw [if_neg hne]

/-- Witness for the amended claim C9: with no previous entry an entry is
stored; with a previous entry of show 3, an entry of show 1 panics. -/
theorem record_entry_spec_witness :
    ParsingContext.notify_new_watch_entry ⟨some 0, some 1, none, none⟩
        ⟨1, ⟨0, 0⟩, ⟨0, 1⟩, ⟨1⟩, none⟩
      = some (.ok ⟨some 0, some 1, some ⟨1, ⟨0, 0⟩, ⟨0, 1⟩, ⟨1⟩, none⟩, none⟩)
    ∧ ParsingContext.notify_new_watch_entry
        ⟨some 0, some 1, some ⟨3, ⟨0, 0⟩, ⟨0, 1⟩, ⟨1⟩, none⟩, none⟩
        ⟨1, ⟨0, 2⟩, ⟨0, 3⟩, ⟨2⟩, none⟩ = none :=
  ⟨(record_entry_spec ⟨some 0, some 1, none, none⟩ ⟨1, ⟨0, 0⟩, ⟨0, 1⟩, ⟨1⟩, none⟩).1 rfl,
   (record_entry_spec ⟨some 0, some 1, some ⟨3, ⟨0, 0⟩, ⟨0, 1⟩, ⟨1⟩, none⟩, none⟩
      ⟨1, ⟨0, 2⟩, ⟨0, 3⟩, ⟨2⟩, none⟩).2.2 ⟨3, ⟨0, 0⟩, ⟨0, 1⟩, ⟨1⟩, none⟩ rfl (by decide)⟩

theorem c10_match_none : ∀ n : Fin 10, matchWatch (c10line n).data = none := by decide

theorem takeG3_length {cs g r : List Char} (h : takeG3 cs = some (g, r)) :
    2 ≤ g.length := by
  unfold takeG3 at h
  split at h
  · cases h
  · rename_i c rest
    split at h
    · split at h
      · split at h
        · cases h
          decide
        · cases h
      · cases h
    · split at h
      · split at h
        · cases h
        · rename_i hrun
          cases h
          cases htw : rest.takeWhile (fun x => isAsciiDigit x || x = '.') with
          | nil => exact absurd htw hrun
          | cons a l =>
            simp only [List.length_cons]
            omega
      · cases h

theorem matchWatch_g3_length : ∀ (cs : List Char) (caps : WatchCaps) (ep : List Char),
    matchWatch cs = some caps → caps.g3 = some ep → 2 ≤ ep.length := by
  intro cs caps ep h hg3
  unfold matchWatch at h
  split at h
  · cases h
  · rename_i t1 r1
    split at h
    · cases h
    · rename_i c r3
      split at h
      · dsimp only at h
        split at h
        · cases h
        · rename_i g2 r6 hbr
          cases htg : takeG3 r6 with
          | some gr =>
            obtain ⟨g, r⟩ := gr
            rw [htg] at h
            dsimp only at h
            split at h
            · cases h
            · rename_i g4 hg4
              cases h
              replace hg3 : some g = some ep := hg3
              cases hg3
              exact takeG3_length htg
          | none =>
            rw [htg] at h
            dsimp only at h
            split at h
            · cases h
            · rename_i g4 hg4
              cases h
              replace hg3 : (none : Option (List Char)) = some ep := hg3
              cases hg3
      · cases h

/-- Claim C10: the line-level pattern never captures a single-character
episode token - every successful match's episode capture has at least two
characters - so a session line whose episode token is a single ASCII digit
cannot match; any line that fails the pattern parses to an error in every
context with a current date and a current show set, leaving the context
unchanged; and the concrete family 10:00 - 12:00 d fails for every ASCII
digit d. -/
theorem single_digit_episode_rejected :
    (∀ (cs : List Char) (caps : WatchCaps) (ep : List Char),
        matchWatch cs = some caps → caps.g3 = some ep → 2 ≤ ep.length)
    ∧ (∀ (ctx : ParsingContext) (cd an : Nat) (line : String),
        ctx.current_date = some cd → ctx.current_anime = some an →
        matchWatch line.data = none →
        WatchLineParser.parse ctx line
          = some (.error ("Line does not match regex: " ++ line), ctx))
    ∧ (∀ (ctx : ParsingContext) (cd an : Nat),
        ctx.current_date = some cd → ctx.current_anime = some an →
        ∀ n : Fin 10, WatchLineParser.parse ctx (c10line n)
          = some (.error ("Line does not match regex: " ++ c10line n), ctx)) := by
  have hpart2 : ∀ (ctx : ParsingContext) (cd an : Nat) (line : String),
      ctx.current_date = some cd → ctx.current_anime = some an →
      matchWatch line.data = none →
      WatchLineParser.parse ctx line
        = some (.error ("Line does not match regex: " ++ line), ctx) := by
    intro ctx cd an line hd ha hm
    obtain ⟨d0, a0, lw, lc⟩ := ctx
    replace hd : d0 = some cd := hd
    replace ha : a0 = some an := ha
    subst hd
    subst ha
    unfold WatchLineParser.parse
    rw [hm]
  exact ⟨matchWatch_g3_length, hpart2,
    fun ctx cd an hd ha n => hpart2 ctx cd an (c10line n) hd ha (c10_match_none n)⟩

/-- Witness for claim C10: the episode capture of the matching line
10:00 - 12:00 12 has two characters, and the line 10:00 - 12:00 5 fails in a
ready context leaving it unchanged. -/
theorem single_digit_episode_rejected_witness :
    2 ≤ (['1', '2'] : List Char).length
    ∧ WatchLineParser.parse ⟨some 0, some 1, none, none⟩ (c10line 5)
      = some (.error ("Line does not match regex: " ++ c10line 5),
          ⟨some 0, some 1, none, none⟩) :=
  ⟨single_digit_episode_rejected.1 ("10:00 - 12:00 12" : String).data
      ⟨['1', '0', ':', '0', '0'], some ['1', '2', ':', '0', '0'], some ['1', '2'], none⟩
      ['1', '2'] rfl rfl,
   single_digit_episode_rejected.2.2 ⟨some 0, some 1, none, none⟩ 0 1 rfl rfl 5⟩

/-- Claim C4: every watch entry returned by a successful watch-line parse
satisfies end timestamp greater than or equal to start timestamp, for every
context state and accepted line, once day rollover has been applied. -/
theorem watch_entry_end_ge_start (ctx : ParsingContext) (line : String)
    (entry : WatchEntry) (ctx2 : ParsingContext)
    (h : WatchLineParser.parse ctx line = some (.ok entry, ctx2)) :
    entry.start_time.toMinutes ≤ entry.end_time.toMinutes := by
  unfold WatchLineParser.parse at h
  split at h
  · cases h
  · split at h
    · cases h
    · split at h
      · cases h
      · split at h
        · cases h
        · split at h
          · cases h
          · split at h
            · cases h
            · rename_i st hst
              split at h
              · cases h
              · rename_i et het
                split at h
                · cases h
                · cases h
                · rename_i sd1 ed1 cd1 ctx1 hr1
                  obtain ⟨hsded, -⟩ := rolloverRule1_ok hr1
                  split at h
                  · cases h
                  · rename_i sd2 ed2 ctx2x hr2
                    have hst1440 := parseHM_lt hst
                    have het1440 := parseHM_lt het
                    have hr2c := rolloverRule2_ok hr2
                    split at h
                    · cases h
                    · split at h
                      · cases h
                      · split at h
                        · cases h
                        · cases h
                        · cases h
                          unfold NaiveDateTime.toMinutes
                          dsimp only
                          rcases hr2c with ⟨hs, he, -, -⟩ | ⟨hs, he, hge, -⟩ <;>
                            subst hs <;> subst he
                          · omega
                          · subst hsded
                            omega

/-- Witness for claim C4, at the successfully parsed line 10:00 - 12:00 12. -/
theorem watch_entry_end_ge_start_witness :
    (⟨1, ⟨100, 600⟩, ⟨100, 720⟩, ⟨12⟩, none⟩ : WatchEntry).start_time.toMinutes ≤
      (⟨1, ⟨100, 600⟩, ⟨100, 720⟩, ⟨12⟩, none⟩ : WatchEntry).end_time.toMinutes :=
  watch_entry_end_ge_start ⟨some 100, some 1, none, none⟩ "10:00 - 12:00 12"
    ⟨1, ⟨100, 600⟩, ⟨100, 720⟩, ⟨12⟩, none⟩
    ⟨some 100, some 1, some ⟨1, ⟨100, 600⟩, ⟨100, 720⟩, ⟨12⟩, none⟩, none⟩ rfl

/-! Episode parsing: relating the checked accumulation loop of i32 parsing to
the final decimal value. -/

theorem accPos_cons (a : Int) (c : Char) (ds : List Char) :
    accPos a (c :: ds) = accPos (a * 10 + (digitNat c : Int)) ds := rfl

theorem accNeg_cons (a : Int) (c : Char) (ds : List Char) :
    accNeg a (c :: ds) = accNeg (a * 10 - (digitNat c : Int)) ds := rfl

theorem accPos_ge : ∀ (ds : List Char) (a : Int), 0 ≤ a → a ≤ accPos a ds := by
  intro ds
  induction ds with
  | nil => intro a _; exact le_refl a
  | cons c ds ih =>
    intro a ha
    rw [accPos_cons]
    have hd : (0 : Int) ≤ (digitNat c : Int) := Int.natCast_nonneg _
    have h1 : a ≤ a * 10 + (digitNat c : Int) := by omega
    exact h1.trans (ih (a * 10 + (digitNat c : Int)) (by omega))

theorem accNeg_le : ∀ (ds : List Char) (a : Int), a ≤ 0 → accNeg a ds ≤ a := by
  intro ds
  induction ds with
  | nil => intro a _; exact le_refl a
  | cons c ds ih =>
    intro a ha
    rw [accNeg_cons]
    have hd : (0 : Int) ≤ (digitNat c : Int) := Int.natCast_nonneg _
    have h1 : a * 10 - (digitNat c : Int) ≤ a := by omega
    exact le_trans (ih (a * 10 - (digitNat c : Int)) (by omega)) h1

theorem parseI32Go_false_eq : ∀ (ds : List Char) (a : Int), 0 ≤ a → a ≤ i32Max →
    parseI32Go false a ds =
      if ds.all isAsciiDigit = true ∧ accPos a ds ≤ i32Max then some (accPos a ds)
      else none := by
  intro ds
  induction ds with
  | nil =>
    intro a ha hle
    rw [if_pos ⟨rfl, hle⟩]
    rfl
  | cons c ds ih =>
    intro a ha hle
    unfold parseI32Go
    by_cases hdig : isAsciiDigit c = true
    · rw [if_pos hdig, if_neg (Bool.false_ne_true)]
      by_cases hover : i32Max < a * 10 + (digitNat c : Int)
      · rw [if_pos hover, if_neg]
        rintro ⟨-, habs⟩
        rw [accPos_cons] at habs
        have := accPos_ge ds (a * 10 + (digitNat c : Int))
          (by have := Int.natCast_nonneg (digitNat c); omega)
        omega
      · rw [if_neg hover,
          ih (a * 10 + (digitNat c : Int))
            (by have := Int.natCast_nonneg (digitNat c); omega) (by omega),
          accPos_cons]
        simp [List.all_cons, hdig]
    · rw [if_neg hdig, if_neg]
      rintro ⟨hall, -⟩
      rw [List.all_cons, Bool.and_eq_true] at hall
      exact hdig hall.1

theorem parseI32Go_true_eq : ∀ (ds : List Char) (a : Int), a ≤ 0 → i32Min ≤ a →
    parseI32Go true a ds =
      if ds.all isAsciiDigit = true ∧ i32Min ≤ accNeg a ds then some (accNeg a ds)
      else none := by
  intro ds
  induction ds with
  | nil =>
    intro a ha hge
    rw [if_pos ⟨rfl, hge⟩]
    rfl
  | cons c ds ih =>
    intro a ha hge
    unfold parseI32Go
    by_cases hdig : isAsciiDigit c = true
    · rw [if_pos hdig, if_pos rfl]
      by_cases hover : a * 10 - (digitNat c : Int) < i32Min
      · rw [if_pos hover, if_neg]
        rintro ⟨-, habs⟩
        rw [accNeg_cons] at habs
        have := accNeg_le ds (a * 10 - (digitNat c : Int))
          (by have := Int.natCast_nonneg (digitNat c); omega)
        omega
      · rw [if_neg hover,
          ih (a * 10 - (digitNat c : Int))
            (by have := Int.natCast_nonneg (digitNat c); omega) (by omega),
          accNeg_cons]
        simp [List.all_cons, hdig]
    · rw [if_neg hdig, if_neg]
      rintro ⟨hall, -⟩
      rw [List.all_cons, Bool.and_eq_true] at hall
      exact hdig hall.1

theorem accPos_natCast : ∀ (ds : List Char) (n : Nat),
    accPos (n : Int) ds = ((ds.foldl (fun a c => a * 10 + digitNat c) n : Nat) : Int) := by
  intro ds
  induction ds with
  | nil => intro n; rfl
  | cons c ds ih =>
    intro n
    rw [accPos_cons, List.foldl_cons]
    have hcast : (n : Int) * 10 + (digitNat c : Int) = ((n * 10 + digitNat c : Nat) : Int) := by
      push_cast
      ring
    rw [hcast, ih]

theorem accPos_zero (ds : List Char) : accPos 0 ds = ((digitsVal ds : Nat) : Int) := by
  have h := accPos_natCast ds 0
  unfold digitsVal
  simpa using h

theorem accNeg_neg : ∀ (ds : List Char) (a : Int), accNeg (-a) ds = -(accPos a ds) := by
  intro ds
  induction ds with
  | nil => intro a; rfl
  | cons c ds ih =>
    intro a
    rw [accNeg_cons, accPos_cons]
    have hcast : (-a) * 10 - (digitNat c : Int) = -(a * 10 + (digitNat c : Int)) := by ring
    rw [hcast, ih]

theorem accNeg_zero (ds : List Char) : accNeg 0 ds = -((digitsVal ds : Nat) : Int) := by
  have h := accNeg_neg ds 0
  rw [neg_zero] at h
  rw [h, accPos_zero]

theorem episode_isOk_isSome (s : String) : (Episode.fromStr s).isOk = (parseI32 s).isSome := by
  unfold Episode.fromStr
  cases parseI32 s <;> rfl

theorem parseI32_isSome (s : String) : (parseI32 s).isSome = episodeAmendedFormat s := by
  unfold parseI32 episodeAmendedFormat
  cases hsd : s.data with
  | nil => rfl
  | cons c rest =>
    dsimp only
    by_cases hp : c = '+'
    · rw [if_pos hp, if_pos hp]
      cases rest with
      | nil => rfl
      | cons c2 r2 =>
        dsimp only
        rw [parseI32Go_false_eq (c2 :: r2) 0 (by omega) (by unfold i32Max; omega),
          accPos_zero]
        by_cases hall : (c2 :: r2).all isAsciiDigit = true
        · by_cases hB : ((digitsVal (c2 :: r2) : Nat) : Int) ≤ i32Max
          · rw [if_pos ⟨hall, hB⟩]
            simp [hall, hB]
          · rw [if_neg (fun hc => hB hc.2)]
            simp [hall, hB]
        · rw [if_neg (fun hc => hall hc.1), Bool.not_eq_true] at *
          simp [hall]
    · by_cases hm : c = '-'
      · rw [if_neg hp, if_neg hp, if_pos hm, if_pos hm]
        cases rest with
        | nil => rfl
        | cons c2 r2 =>
          dsimp only
          rw [parseI32Go_true_eq (c2 :: r2) 0 (by omega) (by unfold i32Min; omega),
            accNeg_zero]
          by_cases hall : (c2 :: r2).all isAsciiDigit = true
          · by_cases hB : ((digitsVal (c2 :: r2) : Nat) : Int) ≤ 2147483648
            · rw [if_pos ⟨hall, by unfold i32Min; omega⟩]
              simp [hall, hB]
            · rw [if_neg]
              · simp [hall, hB]
              · rintro ⟨-, habs⟩
                unfold i32Min at habs
                omega
          · rw [if_neg (fun hc => hall hc.1), Bool.not_eq_true] at *
            simp [hall]
      · rw [if_neg hp, if_neg hp, if_neg hm, if_neg hm]
        rw [parseI32Go_false_eq (c :: rest) 0 (by omega) (by unfold i32Max; omega),
          accPos_zero]
        by_cases hall : (c :: rest).all isAsciiDigit = true
        · by_cases hB : ((digitsVal (c :: rest) : Nat) : Int) ≤ i32Max
          · rw [if_pos ⟨hall, hB⟩]
            simp [hall, hB]
          · rw [if_neg (fun hc => hB hc.2)]
            simp [hall, hB]
        · rw [if_neg (fun hc => hall hc.1), Bool.not_eq_true] at *
          simp [hall]

/-- Claim C5, counterexample: the string +7 is not of the claimed form (an
optional leading minus then digits) yet episode parsing accepts it, because
Rust i32 parsing also accepts a leading plus sign. -/
theorem episode_plus_accepted :
    Episode.fromStr "+7" = .ok ⟨7⟩ ∧ episodeClaimedFormat "+7" = false :=
  ⟨rfl, rfl⟩

/-- Claim C5, amended: episode parsing succeeds exactly on an optional
leading minus or plus sign followed by one or more ASCII digits whose value
fits in a signed 32-bit integer; leading zeros are normalized away (007 and 7
parse to the same value) and the empty string, non-digit strings and decimal
points are rejected. -/
theorem episode_parse_characterisation :
    (∀ s : String, (Episode.fromStr s).isOk = episodeAmendedFormat s)
    ∧ Episode.fromStr "007" = Episode.fromStr "7"
    ∧ (Episode.fromStr "").isOk = false
    ∧ (Episode.fromStr "1.5").isOk = false :=
  ⟨fun s => (episode_isOk_isSome s).trans (parseI32_isSome s), rfl, rfl, rfl⟩

/-- Claim C6, counterexample: the group text wraps two entries with a space
after the comma; the claim says entries are trimmed, so it predicts A and B,
but the code keeps pieces verbatim and returns A and (space B). -/
theorem company_entries_not_trimmed :
    Company.fromStr "{A, B}" = .ok ⟨["A", " B"]⟩ ∧
    (" B" : String) ≠ "B" :=
  ⟨rfl, by decide⟩

/-- Claim C6, amended: company parsing fails unless the text is wrapped in a
brace pair whose interior contains no newline (the regex dot cannot cross a
newline); for a newline-free brace-wrapped text it trims the whole interior,
splits it on commas, drops pieces that are empty after trimming and keeps the
surviving pieces verbatim (not individually trimmed), so that an empty group
gives an empty list and a trailing comma is ignored; a brace-wrapped text
with a newline inside also fails. -/
theorem company_parse_characterisation :
    (∀ s : String, ¬ companyWrapped s → ∃ e, Company.fromStr s = .error e)
    ∧ (∀ mid : List Char, '\n' ∉ mid →
        Company.fromStr (String.mk ('{' :: mid ++ ['}'])) = .ok ⟨companyPieces mid⟩)
    ∧ (∀ mid : List Char, '\n' ∈ mid →
        ∃ e, Company.fromStr (String.mk ('{' :: mid ++ ['}'])) = .error e)
    ∧ Company.fromStr "{}" = .ok ⟨[]⟩
    ∧ Company.fromStr "{A,B,}" = .ok ⟨["A", "B"]⟩
    ∧ Company.fromStr "{A, B}" = .ok ⟨["A", " B"]⟩ := by
  refine ⟨fun s hnw => ?_, fun mid hnl => ?_, fun mid hnl => ?_, rfl, rfl, rfl⟩
  · unfold Company.fromStr
    dsimp only
    rw [if_neg (fun hc => hnw ⟨hc.1, hc.2.1, hc.2.2.1⟩)]
    exact ⟨_, rfl⟩
  · unfold Company.fromStr
    dsimp only
    rw [if_pos]
    · have hint : (List.drop 1 (('{' :: mid) ++ ['}'])).dropLast = mid := by
        rw [List.cons_append, List.drop_one, List.tail_cons, List.dropLast_concat]
      rw [hint]
      unfold companyPieces
      rfl
    · refine ⟨?_, ?_, ?_, ?_⟩
      · simp only [List.length_append, List.length_cons, List.length_singleton]
        omega
      · rw [List.cons_append]
        rfl
      · exact List.getLast?_concat _
      · intro habs
        rcases List.mem_append.mp habs with h | h
        · rcases List.mem_cons.mp h with h2 | h2
          · exact absurd h2 (by decide)
          · exact hnl h2
        · exact absurd (List.mem_singleton.mp h) (by decide)
  · unfold Company.fromStr
    dsimp only
    rw [if_neg]
    · exact ⟨_, rfl⟩
    · rintro ⟨-, -, -, hno⟩
      exact hno (List.mem_append.mpr (Or.inl (List.mem_cons_of_mem '{' hnl)))

/-- Witness for the amended claim C6: a braceless text fails; a wrapped
two-entry group with an interior space parses to its verbatim pieces. -/
theorem company_parse_characterisation_witness :
    (∃ e, Company.fromStr "A,B" = .error e)
    ∧ Company.fromStr (String.mk ('{' :: ['A', ',', ' ', 'B', ','] ++ ['}']))
        = .ok ⟨companyPieces ['A', ',', ' ', 'B', ',']⟩ :=
  ⟨company_parse_characterisation.1 "A,B" (by decide),
   company_parse_characterisation.2.1 ['A', ',', ' ', 'B', ','] (by decide)⟩

/-! Title recognizer lemmas. -/

theorem mem_of_mem_dropWhile {p : Char → Bool} {x : Char} :
    ∀ {l : List Char}, x ∈ l.dropWhile p → x ∈ l := by
  intro l
  induction l with
  | nil => intro h; exact h
  | cons c cs ih =>
    intro h
    rw [List.dropWhile_cons] at h
    by_cases hp : p c = true
    · rw [if_pos hp] at h
      exact List.mem_cons_of_mem c (ih h)
    · rw [if_neg hp] at h
      exact h

theorem isAlphanum_not_ws {c : Char} (h : c.isAlphanum = true) : isWS c = false := by
  unfold isWS
  by_contra habs
  rw [Bool.not_eq_false] at habs
  have hd : ((c = ' ' ∨ c = '\t') ∨ c = '\r') ∨ c = '\n' := by
    simpa [Char.isWhitespace] using habs
  rcases hd with ((hc | hc) | hc) | hc <;> subst hc <;> exact absurd h (by decide)

theorem titleScan_append : ∀ (u acc : List Char),
    (∀ x ∈ u, isBracket x = false) →
    titleScan acc (u ++ [':']) = some (acc.reverse ++ u) := by
  intro u
  induction u with
  | nil =>
    intro acc _
    show titleScan acc [':'] = some (acc.reverse ++ [])
    rw [List.append_nil]
    rfl
  | cons c u ih =>
    intro acc h
    have hbr : isBracket c = false := h c (List.mem_cons_self c u)
    rw [List.cons_append]
    unfold titleScan
    rw [if_neg (by rw [hbr]; exact Bool.false_ne_true)]
    rw [ih (c :: acc) (fun x hx => h x (List.mem_cons_of_mem c hx))]
    dsimp only
    rw [List.reverse_cons, List.append_assoc]
    rfl

theorem titleScan_decomp : ∀ (cs acc cap : List Char), titleScan acc cs = some cap →
    ∃ g tail, cs = g ++ ':' :: tail ∧ titleTailOk tail = true := by
  intro cs
  induction cs with
  | nil =>
    intro acc cap h
    cases h
  | cons c rest ih =>
    intro acc cap h
    unfold titleScan at h
    by_cases hbr : isBracket c = true
    · rw [if_pos hbr] at h
      dsimp only at h
      split at h
      · rename_i hcond
        exact ⟨[], rest, by rw [hcond.1]; rfl, hcond.2⟩
      · cases h
    · rw [if_neg hbr] at h
      cases hscan : titleScan (c :: acc) rest with
      | some r =>
        obtain ⟨g, tail, hdec, htail⟩ := ih (c :: acc) r hscan
        exact ⟨c :: g, tail, by rw [hdec]; rfl, htail⟩
      | none =>
        rw [hscan] at h
        dsimp only at h
        split at h
        · rename_i hcond
          exact ⟨[], rest, by rw [hcond.1]; rfl, hcond.2⟩
        · cases h

theorem hasTrailingColon_of_decomp : ∀ (pre tail : List Char),
    titleTailOk tail = true → hasTrailingColon (pre ++ ':' :: tail) = true := by
  intro pre
  induction pre with
  | nil =>
    intro tail htail
    show hasTrailingColon (':' :: tail) = true
    unfold hasTrailingColon
    rw [htail]
    rfl
  | cons c pre ih =>
    intro tail htail
    show hasTrailingColon (c :: (pre ++ ':' :: tail)) = true
    unfold hasTrailingColon
    rw [ih tail htail, Bool.or_true]

theorem title_parse_ok_colon {line t : String}
    (h : TitleLineParser.parse line = .ok t) :
    hasTrailingColon line.data = true := by
  unfold TitleLineParser.parse at h
  split at h
  · cases h
  · rename_i c rest hdw
    split at h
    · split at h
      · rename_i cap hscan
        obtain ⟨g, tail, hdec, htail⟩ := titleScan_decomp rest [c] cap hscan
        have h0 := List.takeWhile_append_dropWhile (p := isWS) (l := line.data)
        rw [hdw] at h0
        have hline : line.data = (line.data.takeWhile isWS ++ c :: g) ++ ':' :: tail := by
          conv_lhs => rw [← h0]
          rw [hdec]
          simp [List.append_assoc]
        rw [hline]
        exact hasTrailingColon_of_decomp _ tail htail
      · cases h
    · cases h

/-- Claim C7, counterexample: the line consisting of the title (letter A
followed by a space) and the trailing colon parses to the title verbatim,
keeping its trailing space; the claim predicts the trimmed title. -/
theorem title_not_trimmed :
    TitleLineParser.parse "A :" = .ok "A " ∧ ("A " : String) ≠ "A" :=
  ⟨rfl, by decide⟩

/-- Claim C7, amended: for every line of the shape title-then-colon whose
title starts with an alphanumeric character and contains no brackets or
braces, the title recognizer succeeds and returns the title string verbatim
(leading whitespace is skipped by the pattern, but the captured title is not
trimmed of trailing whitespace); it fails on every line without a trailing
colon, that is, without any colon followed only by whitespace and an optional
comment up to the end of the line. -/
theorem title_parse_characterisation :
    (∀ c rest, c.isAlphanum = true → (∀ x ∈ c :: rest, isBracket x = false) →
      TitleLineParser.parse (String.mk ((c :: rest) ++ [':'])) = .ok (String.mk (c :: rest)))
    ∧ (∀ line : String, hasTrailingColon line.data = false →
        ∃ e, TitleLineParser.parse line = .error e) := by
  constructor
  · intro c rest halnum hbr
    unfold TitleLineParser.parse
    dsimp only
    rw [List.cons_append, List.dropWhile_cons,
      if_neg (by rw [isAlphanum_not_ws halnum]; exact Bool.false_ne_true)]
    dsimp only
    rw [if_pos halnum,
      titleScan_append rest [c] (fun x hx => hbr x (List.mem_cons_of_mem c hx))]
    rfl
  · intro line hnc
    cases hparse : TitleLineParser.parse line with
    | error e => exact ⟨e, rfl⟩
    | ok t =>
      refine absurd (title_parse_ok_colon hparse) ?_
      rw [hnc]
      exact Bool.false_ne_true

/-- Witness for the amended claim C7: the line Re:Zero followed by the
trailing colon is accepted with the embedded colon kept in the title, and the
line A:x, whose only colon is not trailing, fails. -/
theorem title_parse_characterisation_witness :
    TitleLineParser.parse (String.mk (('R' :: ['e', ':', 'Z', 'e', 'r', 'o']) ++ [':']))
      = .ok (String.mk ('R' :: ['e', ':', 'Z', 'e', 'r', 'o']))
    ∧ (∃ e, TitleLineParser.parse "A:x" = .error e) :=
  ⟨title_parse_characterisation.1 'R' ['e', ':', 'Z', 'e', 'r', 'o'] (by decide) (by decide),
   title_parse_characterisation.2 "A:x" (by decide)⟩

end RustAnime
